import Mathlib

set_option maxHeartbeats 1000000

namespace RegAsis

/-! # Shallow embedding of `src/lib/excel-processor.ts`

The core of the repository is the record-extraction and hours-computation
engine in `excel-processor.ts`: `cleanData` (grid normalizer),
`calculateHours` (per-day punch parsing) and the scan loop of
`processExcel` (attendance extractor).  Cells are dynamically typed JS
values (null/undefined, string, number); we model them as a tagged union
with rationals for JS numbers. -/

/-- A dynamically-typed spreadsheet cell / record value: JS
null-or-undefined, string, or number (modelled as a rational). -/
inductive JSValue where
  | null : JSValue
  | str : String → JSValue
  | num : ℚ → JSValue
deriving DecidableEq

/-- JavaScript truthiness of the modelled values (`!!v`). -/
def truthy : JSValue → Bool
  | .null => false
  | .str s => s != ""
  | .num q => q != 0

/-- The emptiness test used by `cleanData`:
`cell !== null && cell !== undefined && cell !== ''` negated. -/
def cellIsEmpty : JSValue → Bool
  | .null => true
  | .str s => s == ""
  | .num _ => false

/-! ## String helpers (JS `split`, `trim`, and the time regex) -/

/-- JS `String.prototype.split(sep)` on a character list
(`"".split(s)` yields `[""]`, like `splitOnChar` on `[]`). -/
def splitOnChar (sep : Char) : List Char → List (List Char)
  | [] => [[]]
  | c :: cs =>
    if c = sep then [] :: splitOnChar sep cs
    else
      match splitOnChar sep cs with
      | [] => [[c]]
      | p :: ps => (c :: p) :: ps

/-- Whitespace stripped by JS `String.prototype.trim` (ASCII portion). -/
def jsWhitespace (c : Char) : Bool :=
  c = ' ' || c = '\t' || c = '\n' || c = '\r' || c = '\x0b' || c = '\x0c'

/-- JS `String.prototype.trim` on a character list. -/
def trimChars (l : List Char) : List Char :=
  ((l.dropWhile jsWhitespace).reverse.dropWhile jsWhitespace).reverse

/-- Numeric value of an ASCII digit. -/
def digitVal (c : Char) : Nat := c.toNat - '0'.toNat

/-- Attempt to match the regex `/(\d\x7b1,2\x7d):(\d\x7b2\x7d)/` at the head of the
character list: greedy two-digit hour first, then the one-digit backtrack,
exactly as a backtracking regex engine does.  Returns (hour, minute). -/
def matchTimeAt : List Char → Option (Nat × Nat)
  | c1 :: c2 :: c3 :: c4 :: c5 :: _ =>
    if c1.isDigit && c2.isDigit && c3 = ':' && c4.isDigit && c5.isDigit then
      some (10 * digitVal c1 + digitVal c2, 10 * digitVal c4 + digitVal c5)
    else if c1.isDigit && c2 = ':' && c3.isDigit && c4.isDigit then
      some (digitVal c1, 10 * digitVal c3 + digitVal c4)
    else none
  | [c1, c2, c3, c4] =>
    if c1.isDigit && c2 = ':' && c3.isDigit && c4.isDigit then
      some (digitVal c1, 10 * digitVal c3 + digitVal c4)
    else none
  | _ => none

/-- First match of the time pattern anywhere in the string
(JS `String.prototype.match` with a non-global regex). -/
def findTime : List Char → Option (Nat × Nat)
  | [] => none
  | c :: cs =>
    match matchTimeAt (c :: cs) with
    | some r => some r
    | none => findTime cs

/-- Rational addition, written on the numerator/denominator pairs so that
concrete values evaluate inside the kernel (provably equal to `+`,
see `qAdd_eq_add`). -/
def qAdd (a b : ℚ) : ℚ := Rat.divInt (a.num * b.den + b.num * a.den) (a.den * b.den)

/-- Rational division on the numerator/denominator pairs (provably equal
to `/`, see `qDiv_eq_div`). -/
def qDiv (a b : ℚ) : ℚ := Rat.divInt (a.num * b.den) (a.den * b.num)

/-- The 7.75-hour sufficiency threshold (see `hoursThreshold_eq`). -/
def hoursThreshold : ℚ := Rat.divInt 31 4

/-- `parseFloat(x.toFixed(2))` for the (always positive) values produced by
the processor: round to 2 decimal places, half away from zero.  Written on
the numerator/denominator pair; `round2_floor` states the usual floor
formula. -/
def round2 (q : ℚ) : ℚ :=
  Rat.divInt ((200 * q.num + (q.den : ℤ)).fdiv (2 * (q.den : ℤ))) 100

/-- The non-empty trimmed newline-separated segments of a punch string:
`timeString.split('\n').map(p => p.trim()).filter(p => p)`. -/
def segmentsOf (s : String) : List (List Char) :=
  ((splitOnChar '\n' s.toList).map trimChars).filter (fun p => p ≠ [])

/-- `calculateHours` from `excel-processor.ts`.  The two `new Date()`
objects share the same day, and `setHours(h, m, 0, 0)` places each at
`h` hours `m` minutes past that day's midnight (rolling over for `h ≥ 24`),
so the comparison and difference reduce to total minutes. -/
def calculateHours (timeString : JSValue) : JSValue :=
  match timeString with
  | .null => .str "NO HAY REGISTRO"
  | .num _ => .str "NO HAY REGISTRO"
  | .str s =>
    if s = "" then .str "NO HAY REGISTRO"
    else
      let parts := segmentsOf s
      if parts.length = 0 then .str "NO HAY REGISTRO"
      else if parts.length = 1 then .str "REGISTRO INCOMPLETO"
      else
        match findTime (parts.headD []), findTime (parts.getLastD []) with
        | some tin, some tout =>
          let inMin : Nat := tin.1 * 60 + tin.2
          let outMin : Nat := tout.1 * 60 + tout.2
          if outMin ≤ inMin then .str "REGISTRO INCOMPLETO"
          else .num (round2 (Rat.divInt ((outMin : ℤ) - (inMin : ℤ)) 60))
        | _, _ => .str "REGISTRO INCOMPLETO"

/-! ## Grid normalizer (`cleanData`) -/

/-- `row.some(cell => cell !== null && cell !== undefined && cell !== '')`. -/
def rowHasValue (row : List JSValue) : Bool :=
  row.any (fun c => !cellIsEmpty c)

/-- A column index `j` is empty when, across every row, the cell at `j`
(absent beyond a row's own length) is absent or the empty string:
`rows.every(row => row[j] === null || row[j] === undefined || row[j] === '')`. -/
def colIsEmpty (rows : List (List JSValue)) (j : Nat) : Bool :=
  rows.all (fun row => cellIsEmpty (row.getD j JSValue.null))

/-- Index-aware filter, JS `row.filter((_, j) => P j)` with the running
index starting at `n`. -/
def keepIdx (P : Nat → Bool) : Nat → List JSValue → List JSValue
  | _, [] => []
  | n, c :: cs => if P n then c :: keepIdx P (n + 1) cs else keepIdx P (n + 1) cs

/-- `cleanData` from `excel-processor.ts`: drop all-empty rows; if none
survive return the empty grid; otherwise drop the column indices (below the
maximum surviving row length) that are empty across every surviving row. -/
def cleanData (data : List (List JSValue)) : List (List JSValue) :=
  let filteredData := data.filter rowHasValue
  if filteredData.isEmpty then []
  else
    let colCount := (filteredData.map List.length).foldl max 0
    let emptyCols := (List.range colCount).filter (fun j => colIsEmpty filteredData j)
    if emptyCols.isEmpty then filteredData
    else filteredData.map (fun row => keepIdx (fun j => !(emptyCols.contains j)) 0 row)

/-! ## Attendance extractor (`processExcel` scan loop) -/

/-- `haystack` contains `pat` as a contiguous subsequence
(JS `String.prototype.includes`). -/
def containsSeq (pat : List Char) : List Char → Bool
  | [] => pat.isEmpty
  | c :: cs => pat.isPrefixOf (c :: cs) || containsSeq pat cs

/-- `typeof cell === 'string' && cell.includes(pat)`. -/
def cellContains (pat : String) : JSValue → Bool
  | .str s => containsSeq pat.toList s.toList
  | _ => false

/-- `row.some(cell => typeof cell === 'string' && cell.includes('ID :'))`. -/
def isIdRow (row : List JSValue) : Bool :=
  row.any (cellContains "ID :")

/-- Positional field resolution from a header row:
`row.findIndex(marker)` then the cell `off` places to the right when that
stays inside the row, else `null`. -/
def fieldAt (row : List JSValue) (pat : String) (off : Nat) : JSValue :=
  match row.findIdx? (fun c => cellContains pat c) with
  | some j => if j + off < row.length then row.getD (j + off) JSValue.null else JSValue.null
  | none => JSValue.null

/-- JS object-literal assignment `m[k] = v` on an insertion-ordered map:
overwrite in place when the key exists, otherwise append. -/
def jsInsert (m : List (String × JSValue)) (k : String) (v : JSValue) :
    List (String × JSValue) :=
  if m.any (fun p => p.1 == k) then
    m.map (fun p => if p.1 == k then (k, v) else p)
  else m ++ [(k, v)]

/-- JS property read `m[k]`: the value at the first (hence, keys being
unique, the only) binding of `k`. -/
def jsGet : List (String × JSValue) → String → Option JSValue
  | [], _ => none
  | p :: ps, k => if p.1 == k then some p.2 else jsGet ps k

/-- The four per-employee accumulators of the `days.forEach` loop. -/
structure Tally where
  totalHours : ℚ
  registeredDaysCount : Nat
  daysWithInsufficientHours : Nat
  daysWithSufficientHours : Nat
deriving DecidableEq

/-- The all-zero initial accumulator. -/
def tally0 : Tally := ⟨0, 0, 0, 0⟩

/-- The accumulator update of the loop body, on the computed `hours`:
numbers add to the total and the registered count and are classified
against 7.75; `'REGISTRO INCOMPLETO'` counts as an insufficient day;
anything else touches nothing. -/
def tallyStep (acc : Tally) (hours : JSValue) : Tally :=
  match hours with
  | .num q =>
    if q < hoursThreshold then
      { acc with totalHours := qAdd acc.totalHours q,
                 registeredDaysCount := acc.registeredDaysCount + 1,
                 daysWithInsufficientHours := acc.daysWithInsufficientHours + 1 }
    else
      { acc with totalHours := qAdd acc.totalHours q,
                 registeredDaysCount := acc.registeredDaysCount + 1,
                 daysWithSufficientHours := acc.daysWithSufficientHours + 1 }
  | .str s => if s = "REGISTRO INCOMPLETO"
      then { acc with daysWithInsufficientHours := acc.daysWithInsufficientHours + 1 }
      else acc
  | .null => acc

/-- One iteration of `days.forEach((day, index) => ...)`: store the raw
date value (absent becomes the empty string) and the computed hours under
their keys, and update the accumulators. -/
def dayStep (month : String) (year : Int) (dateRow : List JSValue)
    (acc : List (String × JSValue) × Tally) (index : Nat) (day : String) :
    List (String × JSValue) × Tally :=
  let dateKey := day ++ "-" ++ month ++ "-" ++ toString year
  let hoursKey := "Horas-" ++ day
  let value := dateRow.getD index JSValue.null
  let hours := calculateHours value
  let recs := jsInsert (jsInsert acc.1 dateKey
      (if value = JSValue.null then JSValue.str "" else value)) hoursKey hours
  (recs, tallyStep acc.2 hours)

/-- The whole `days.forEach` loop, with the running index. -/
def processDays (month : String) (year : Int) (dateRow : List JSValue) :
    Nat → List String → List (String × JSValue) × Tally →
    List (String × JSValue) × Tally
  | _, [], acc => acc
  | index, day :: rest, acc =>
      processDays month year dateRow (index + 1) rest
        (dayStep month year dateRow acc index day)

/-- The body of the scan loop for a detected header row paired with its
punch row: resolve the identity fields, run the per-day loop, compute the
average, and emit a record only when `id || name` is truthy. -/
def processPair (row nextRow : List JSValue) (days : List String)
    (month : String) (year : Int) : Option (List (String × JSValue)) :=
  let id := fieldAt row "ID :" 2
  let name := fieldAt row "Nombre :" 1
  let department := fieldAt row "Dept. :" 2
  let res := processDays month year nextRow 0 days ([], tally0)
  let averageHours : ℚ :=
    if res.2.registeredDaysCount > 0
    then round2 (qDiv res.2.totalHours (res.2.registeredDaysCount : ℚ))
    else 0
  if truthy id || truthy name then
    some (jsInsert (jsInsert (jsInsert
      (res.1.foldl (fun m kv => jsInsert m kv.1 kv.2)
        (jsInsert (jsInsert (jsInsert [] "ID" id) "Nombre" name)
          "Departamento" department))
      "Horas/Día" (.num averageHours))
      "Días Cumplidos" (.num res.2.daysWithSufficientHours))
      "Días Incumplidos" (.num res.2.daysWithInsufficientHours))
  else none

/-- The scan loop `for (let i = 0; i < data.length - 1; i++)`: the loop
condition means the scan runs only while at least two rows remain; on a
header row the index advances by 2 (the `i += 1` plus the loop increment),
otherwise by 1. -/
def extractRows (days : List String) (month : String) (year : Int) :
    List (List JSValue) → List (List (String × JSValue))
  | row :: nextRow :: rest =>
    if isIdRow row then
      match processPair row nextRow days month year with
      | some r => r :: extractRows days month year rest
      | none => extractRows days month year rest
    else extractRows days month year (nextRow :: rest)
  | _ => []

/-- The extraction pipeline after the spreadsheet decode: normalize the
grid, then scan it. -/
def extractFromGrid (grid : List (List JSValue)) (days : List String)
    (month : String) (year : Int) : List (List (String × JSValue)) :=
  extractRows days month year (cleanData grid)

/-! ## `processExcel` with the decoded workbook abstracted -/

/-- The decoded workbook: its sheet names, and the raw grid each sheet
decodes to (`XLSX.utils.sheet_to_json(..., header: 1, defval: null)`). -/
structure Workbook where
  sheetNames : List String
  sheets : String → List (List JSValue)

/-- The caller-supplied configuration of `processExcel`. -/
structure ProcessConfig where
  sheetName : String
  days : String
  year : Int
  month : String

/-- `config.days.split(',').map(d => d.trim()).filter(d => d)`. -/
def splitDaysStr (s : String) : List String :=
  ((((splitOnChar ',' s.toList).map trimChars).filter
    (fun d => d ≠ [])).map (fun l => String.mk l))

/-- `processExcel` with file decoding abstracted to a `Workbook`: fail
fast (naming the available sheets) when the requested sheet is absent,
otherwise normalize and scan that sheet's grid. -/
def processExcelM (wb : Workbook) (config : ProcessConfig) :
    Except String (List (List (String × JSValue))) :=
  if !(wb.sheetNames.contains config.sheetName) then
    .error ("Sheet \"" ++ config.sheetName ++ "\" not found. Available sheets: "
      ++ String.intercalate ", " wb.sheetNames)
  else
    .ok (extractFromGrid (wb.sheets config.sheetName) (splitDaysStr config.days)
      config.month config.year)

/-! ## Bridging lemmas for the kernel-reducible rational helpers -/

theorem qAdd_eq_add (a b : ℚ) : qAdd a b = a + b := by
  unfold qAdd
  rw [Rat.divInt_eq_div, Rat.add_def]
  rw [Rat.normalize_eq_mkRat, Rat.mkRat_eq_divInt, Rat.divInt_eq_div]
  push_cast
  ring_nf

theorem qDiv_eq_div (a b : ℚ) : qDiv a b = a / b := by
  unfold qDiv
  rcases eq_or_ne b 0 with rfl | hb
  · simp [Rat.divInt_eq_div]
  · have hbn : (b.num : ℚ) ≠ 0 := Int.cast_ne_zero.mpr (Rat.num_ne_zero.mpr hb)
    have had : (a.den : ℚ) ≠ 0 := Nat.cast_ne_zero.mpr a.den_nz
    have hbd : (b.den : ℚ) ≠ 0 := Nat.cast_ne_zero.mpr b.den_nz
    rw [Rat.divInt_eq_div]
    conv_rhs => rw [← Rat.num_div_den a, ← Rat.num_div_den b]
    push_cast
    field_simp

theorem hoursThreshold_eq : hoursThreshold = 7.75 := by
  unfold hoursThreshold
  rw [Rat.divInt_eq_div]
  norm_num

theorem round2_floor (q : ℚ) : round2 q = ((⌊q * 100 + 1/2⌋ : ℤ) : ℚ) / 100 := by
  unfold round2
  rw [Rat.divInt_eq_div]
  norm_num
  congr 1
  have hd : (0 : ℤ) ≤ 2 * (q.den : ℤ) := by positivity
  rw [Int.fdiv_eq_ediv _ hd]
  have h2 : q * 100 + 1/2 = ((200 * q.num + (q.den : ℤ) : ℤ) : ℚ) / ((2 * q.den : ℕ) : ℚ) := by
    conv_lhs => rw [← Rat.num_div_den q]
    have : (q.den : ℚ) ≠ 0 := Nat.cast_ne_zero.mpr q.den_nz
    push_cast
    field_simp
    ring
  rw [h2, Rat.floor_intCast_div_natCast]
  push_cast
  rfl

/-! ## Spec-side characterizations used by the claims -/

/-- The reference definition of `computeHours` as the specification words
it: absent, non-string, or zero non-empty trimmed newline segments give
`"NO HAY REGISTRO"`; one segment, an unmatched time pattern in the first
or last segment, or a check-out not after the check-in give
`"REGISTRO INCOMPLETO"`; otherwise the fractional-hour difference rounded
to 2 decimal places. -/
def refComputeHours (v : JSValue) : JSValue :=
  match v with
  | .str s =>
    let segs := segmentsOf s
    if segs.length = 0 then .str "NO HAY REGISTRO"
    else if segs.length = 1 then .str "REGISTRO INCOMPLETO"
    else
      match findTime (segs.headD []), findTime (segs.getLastD []) with
      | some tin, some tout =>
        if tout.1 * 60 + tout.2 ≤ tin.1 * 60 + tin.2 then .str "REGISTRO INCOMPLETO"
        else .num (round2 (Rat.divInt ((tout.1 * 60 + tout.2 : ℕ) : ℤ) 60 -
          Rat.divInt ((tin.1 * 60 + tin.2 : ℕ) : ℤ) 60))
      | _, _ => .str "REGISTRO INCOMPLETO"
  | _ => .str "NO HAY REGISTRO"

/-- The per-day hours values seen by the `days.forEach` loop, in order:
`calculateHours` of the punch-row cell at each day's ordinal position. -/
def hoursSeen (dateRow : List JSValue) : Nat → List String → List JSValue
  | _, [] => []
  | index, _ :: rest =>
      calculateHours (dateRow.getD index JSValue.null) ::
        hoursSeen dateRow (index + 1) rest

/-- The numeric elements of a list of record values. -/
def numsOf (l : List JSValue) : List ℚ :=
  l.filterMap (fun v => match v with | .num q => some q | _ => none)

/-- A day whose hours value counts as sufficient: numeric and `≥ 7.75`. -/
def sufficientDay : JSValue → Bool
  | .num q => if 7.75 ≤ q then true else false
  | _ => false

/-- A day whose hours value counts as insufficient: numeric and `< 7.75`,
or the `"REGISTRO INCOMPLETO"` sentinel. -/
def insufficientDay : JSValue → Bool
  | .num q => if q < 7.75 then true else false
  | .str s => s == "REGISTRO INCOMPLETO"
  | .null => false

/-! ## List lemmas for the grid normalizer -/

theorem foldl_max_init_le : ∀ (l : List Nat) (a : Nat), a ≤ l.foldl max a
  | [], _ => le_refl _
  | b :: t, a => le_trans (le_max_left a b) (foldl_max_init_le t (max a b))

theorem mem_le_foldl_max : ∀ (l : List Nat) (a x : Nat), x ∈ l → x ≤ l.foldl max a
  | b :: t, a, x, h => by
    rcases List.mem_cons.mp h with rfl | h'
    · exact le_trans (le_max_right a x) (foldl_max_init_le t (max a x))
    · exact mem_le_foldl_max t (max a b) x h'

theorem map_id_on {α : Type} (f : α → α) :
    ∀ (l : List α), (∀ x ∈ l, f x = x) → l.map f = l
  | [], _ => rfl
  | a :: t, h => by
    simp only [List.map_cons]
    rw [h a (List.mem_cons_self a t),
      map_id_on f t (fun x hx => h x (List.mem_cons_of_mem _ hx))]

theorem keepIdx_sublist (P : Nat → Bool) :
    ∀ (n : Nat) (row : List JSValue), (keepIdx P n row).Sublist row
  | _, [] => List.Sublist.refl []
  | n, c :: cs => by
    unfold keepIdx
    by_cases h : P n
    · rw [if_pos h]
      exact List.Sublist.cons₂ c (keepIdx_sublist P (n + 1) cs)
    · rw [if_neg h]
      exact List.Sublist.cons c (keepIdx_sublist P (n + 1) cs)

theorem keepIdx_all (P : Nat → Bool) :
    ∀ (n : Nat) (row : List JSValue),
      (∀ t, t < row.length → P (n + t) = true) → keepIdx P n row = row
  | _, [], _ => rfl
  | n, c :: cs, h => by
    unfold keepIdx
    rw [if_pos (by simpa using h 0 (Nat.succ_pos _)),
      keepIdx_all P (n + 1) cs
        (fun t ht => by
          have := h (t + 1) (Nat.succ_lt_succ ht)
          simpa [Nat.add_assoc, Nat.add_comm 1 t] using this)]

theorem keepIdx_congr (P Q : Nat → Bool) :
    ∀ (n : Nat) (row : List JSValue),
      (∀ t, t < row.length → P (n + t) = Q (n + t)) →
      keepIdx P n row = keepIdx Q n row
  | _, [], _ => rfl
  | n, c :: cs, h => by
    unfold keepIdx
    have h0 : P n = Q n := by simpa using h 0 (Nat.succ_pos _)
    have ht : keepIdx P (n + 1) cs = keepIdx Q (n + 1) cs :=
      keepIdx_congr P Q (n + 1) cs
        (fun t ht => by
          have := h (t + 1) (Nat.succ_lt_succ ht)
          simpa [Nat.add_assoc, Nat.add_comm 1 t] using this)
    rw [h0, ht]

/-- Characterization of the grid normalizer: it keeps exactly the rows
with at least one non-empty cell, and from each it keeps exactly the cells
whose column index is non-empty across all surviving rows. -/
theorem cleanData_char (g : List (List JSValue)) :
    cleanData g = (g.filter rowHasValue).map
      (fun row => keepIdx (fun j => !(colIsEmpty (g.filter rowHasValue) j)) 0 row) := by
  unfold cleanData
  by_cases hFe : (g.filter rowHasValue).isEmpty
  · rw [if_pos hFe]
    rw [List.isEmpty_iff] at hFe
    rw [hFe, List.map_nil]
  · rw [if_neg hFe]
    have hlen : ∀ row ∈ g.filter rowHasValue,
        row.length ≤ ((g.filter rowHasValue).map List.length).foldl max 0 := by
      intro row hrow
      exact mem_le_foldl_max _ _ _ (List.mem_map_of_mem _ hrow)
    by_cases hee : ((List.range (((g.filter rowHasValue).map List.length).foldl max 0)).filter
        (fun j => colIsEmpty (g.filter rowHasValue) j)).isEmpty
    · rw [if_pos hee]
      rw [List.isEmpty_iff] at hee
      symm
      apply map_id_on
      intro row hrow
      apply keepIdx_all
      intro t ht
      simp only [Nat.zero_add]
      cases hcol : colIsEmpty (g.filter rowHasValue) t
      · rfl
      · exfalso
        have htmem : t ∈ (List.range (((g.filter rowHasValue).map List.length).foldl max 0)).filter
            (fun j => colIsEmpty (g.filter rowHasValue) j) :=
          List.mem_filter.mpr
            ⟨List.mem_range.mpr (lt_of_lt_of_le ht (hlen row hrow)), hcol⟩
        rw [hee] at htmem
        exact absurd htmem (List.not_mem_nil t)
    · rw [if_neg hee]
      apply List.map_congr_left
      intro row hrow
      apply keepIdx_congr
      intro t ht
      simp only [Nat.zero_add]
      congr 1
      cases hcol : colIsEmpty (g.filter rowHasValue) t
      · have hnm : t ∉ (List.range (((g.filter rowHasValue).map List.length).foldl max 0)).filter
            (fun j => colIsEmpty (g.filter rowHasValue) j) := by
          intro hmem
          have h2 := (List.mem_filter.mp hmem).2
          rw [hcol] at h2
          exact absurd h2 (by simp)
        simpa using hnm
      · have hm : t ∈ (List.range (((g.filter rowHasValue).map List.length).foldl max 0)).filter
            (fun j => colIsEmpty (g.filter rowHasValue) j) :=
          List.mem_filter.mpr
            ⟨List.mem_range.mpr (lt_of_lt_of_le ht (hlen row hrow)), by rw [hcol]⟩
        simpa using hm

/-- How many of the indices `n, n+1, ..., n+t-1` the predicate keeps. -/
def countKept (P : Nat → Bool) : Nat → Nat → Nat
  | _, 0 => 0
  | n, t + 1 => (if P n then 1 else 0) + countKept P (n + 1) t

theorem keepIdx_cons (P : Nat → Bool) (n : Nat) (c : JSValue) (cs : List JSValue) :
    keepIdx P n (c :: cs) =
      if P n then c :: keepIdx P (n + 1) cs else keepIdx P (n + 1) cs := rfl

theorem countKept_succ (P : Nat → Bool) (n t : Nat) :
    countKept P n (t + 1) = (if P n then 1 else 0) + countKept P (n + 1) t := rfl

theorem keepIdx_mem (P : Nat → Bool) :
    ∀ (row : List JSValue) (n t : Nat), P (n + t) = true → t < row.length →
      row.getD t JSValue.null ∈ keepIdx P n row
  | c :: cs, n, 0, hP, _ => by
    unfold keepIdx
    rw [if_pos (by simpa using hP)]
    exact List.mem_cons_self _ _
  | c :: cs, n, t + 1, hP, ht => by
    have hP' : P ((n + 1) + t) = true := by
      rw [show (n + 1) + t = n + (t + 1) by omega]
      exact hP
    have ih := keepIdx_mem P cs (n + 1) t hP' (Nat.lt_of_succ_lt_succ ht)
    unfold keepIdx
    by_cases h : P n
    · rw [if_pos h]
      exact List.mem_cons_of_mem _ (by simpa using ih)
    · rw [if_neg h]
      simpa using ih

theorem keepIdx_length_surj (P : Nat → Bool) :
    ∀ (row : List JSValue) (n t : Nat), t < (keepIdx P n row).length →
      ∃ u, P (n + u) = true ∧ u < row.length ∧ countKept P n u = t
  | [], _, t, h => absurd h (by simp [keepIdx])
  | c :: cs, n, t, h => by
    by_cases hP : P n
    · have hkeep : keepIdx P n (c :: cs) = c :: keepIdx P (n + 1) cs := by
        rw [keepIdx_cons, if_pos hP]
      match t with
      | 0 =>
        exact ⟨0, by simpa using hP, Nat.succ_pos _, rfl⟩
      | t' + 1 =>
        rw [hkeep] at h
        obtain ⟨u', hu1, hu2, hu3⟩ :=
          keepIdx_length_surj P cs (n + 1) t' (Nat.lt_of_succ_lt_succ h)
        refine ⟨u' + 1, ?_, Nat.succ_lt_succ hu2, ?_⟩
        · rw [show n + (u' + 1) = (n + 1) + u' by omega]
          exact hu1
        · rw [countKept_succ, if_pos hP, hu3]
          omega
    · have hkeep : keepIdx P n (c :: cs) = keepIdx P (n + 1) cs := by
        rw [keepIdx_cons, if_neg hP]
      rw [hkeep] at h
      obtain ⟨u', hu1, hu2, hu3⟩ := keepIdx_length_surj P cs (n + 1) t h
      refine ⟨u' + 1, ?_, Nat.succ_lt_succ hu2, ?_⟩
      · rw [show n + (u' + 1) = (n + 1) + u' by omega]
        exact hu1
      · rw [countKept_succ, if_neg hP, hu3]
        omega

theorem keepIdx_getD_countKept (P : Nat → Bool) :
    ∀ (row : List JSValue) (n u : Nat), P (n + u) = true → u < row.length →
      countKept P n u < (keepIdx P n row).length ∧
      (keepIdx P n row).getD (countKept P n u) JSValue.null = row.getD u JSValue.null
  | c :: cs, n, 0, hP, _ => by
    have hPn : P n = true := by simpa using hP
    have hkeep : keepIdx P n (c :: cs) = c :: keepIdx P (n + 1) cs := by
      rw [keepIdx_cons, if_pos hPn]
    rw [hkeep]
    exact ⟨Nat.succ_pos _, rfl⟩
  | c :: cs, n, u + 1, hP, hu => by
    have hP' : P ((n + 1) + u) = true := by
      rw [show (n + 1) + u = n + (u + 1) by omega]
      exact hP
    obtain ⟨ih1, ih2⟩ :=
      keepIdx_getD_countKept P cs (n + 1) u hP' (Nat.lt_of_succ_lt_succ hu)
    by_cases hPn : P n
    · have hkeep : keepIdx P n (c :: cs) = c :: keepIdx P (n + 1) cs := by
        rw [keepIdx_cons, if_pos hPn]
      have hcount : countKept P n (u + 1) = countKept P (n + 1) u + 1 := by
        rw [countKept_succ, if_pos hPn]; omega
      rw [hkeep, hcount]
      constructor
      · simpa using Nat.succ_lt_succ ih1
      · simpa using ih2
    · have hkeep : keepIdx P n (c :: cs) = keepIdx P (n + 1) cs := by
        rw [keepIdx_cons, if_neg hPn]
      have hcount : countKept P n (u + 1) = countKept P (n + 1) u := by
        rw [countKept_succ, if_neg hPn]; omega
      rw [hkeep, hcount]
      exact ⟨ih1, by simpa using ih2⟩

/-- Every row of a normalized grid still has a non-empty cell: only empty
columns were removed, so each surviving row keeps its witness cell. -/
theorem cleanData_rowHasValue (g : List (List JSValue)) :
    ∀ r ∈ cleanData g, rowHasValue r = true := by
  intro r hr
  rw [cleanData_char g] at hr
  obtain ⟨row, hrow, rfl⟩ := List.mem_map.mp hr
  have hval : rowHasValue row = true := (List.mem_filter.mp hrow).2
  obtain ⟨x, hx, hxe⟩ := List.any_eq_true.mp hval
  obtain ⟨t, htl, rfl⟩ := List.mem_iff_getElem.mp hx
  have hkeep : (!(colIsEmpty (g.filter rowHasValue) t)) = true := by
    cases hcol : colIsEmpty (g.filter rowHasValue) t
    · rfl
    · exfalso
      have hall := List.all_eq_true.mp hcol row hrow
      rw [List.getD_eq_getElem row JSValue.null htl] at hall
      simp [hall] at hxe
  have hmem := keepIdx_mem (fun j => !(colIsEmpty (g.filter rowHasValue) j)) row 0 t
      (by simpa using hkeep) htl
  rw [List.getD_eq_getElem row JSValue.null htl] at hmem
  exact List.any_eq_true.mpr ⟨_, hmem, hxe⟩

/-- No column of a normalized grid that exists in some row is empty
across all rows: each kept column index descends from a column that had a
non-empty witness cell, and the witness survives at the same new index. -/
theorem cleanData_col_nonempty (g : List (List JSValue)) :
    ∀ (t : Nat) (r : List JSValue), r ∈ cleanData g → t < r.length →
      colIsEmpty (cleanData g) t = false := by
  intro t r hr htr
  rw [cleanData_char g] at hr
  obtain ⟨row0, hrow0, rfl⟩ := List.mem_map.mp hr
  obtain ⟨u, hu1, hu2, hu3⟩ := keepIdx_length_surj _ row0 0 t htr
  have hcolu : colIsEmpty (g.filter rowHasValue) u = false := by
    simpa using hu1
  obtain ⟨row1, hrow1, hcell⟩ := List.all_eq_false.mp hcolu
  have hcell' : cellIsEmpty (row1.getD u JSValue.null) = false := by
    cases hc : cellIsEmpty (row1.getD u JSValue.null)
    · rfl
    · exact absurd hc hcell
  have hu4 : u < row1.length := by
    by_contra hlen
    push_neg at hlen
    rw [List.getD_eq_default row1 JSValue.null hlen] at hcell'
    simp [cellIsEmpty] at hcell'
  obtain ⟨hlt, heq⟩ := keepIdx_getD_countKept
      (fun j => !(colIsEmpty (g.filter rowHasValue) j)) row1 0 u
      (by simpa using hcolu) hu4
  rw [hu3] at hlt heq
  cases hcol : colIsEmpty (cleanData g) t
  · rfl
  · exfalso
    have hmem : keepIdx (fun j => !(colIsEmpty (g.filter rowHasValue) j)) 0 row1 ∈
        cleanData g := by
      rw [cleanData_char g]
      exact List.mem_map_of_mem _ hrow1
    have hall := List.all_eq_true.mp hcol _ hmem
    rw [heq, hcell'] at hall
    exact absurd hall (by simp)

/-! ## Record-map lemmas (JS object semantics) -/

theorem jsGet_map_overwrite (k : String) (v : JSValue) :
    ∀ (m : List (String × JSValue)), m.any (fun p => p.1 == k) = true →
      jsGet (m.map (fun p => if p.1 == k then (k, v) else p)) k = some v
  | p :: ps, h => by
    by_cases hp : (p.1 == k) = true
    · simp only [List.map_cons, if_pos hp]
      simp [jsGet]
    · simp only [List.map_cons, if_neg hp]
      have htail : ps.any (fun p => p.1 == k) = true := by
        rcases List.any_eq_true.mp h with ⟨x, hx, hxk⟩
        rcases List.mem_cons.mp hx with rfl | hx'
        · exact absurd hxk hp
        · exact List.any_eq_true.mpr ⟨x, hx', hxk⟩
      simp only [jsGet, if_neg hp]
      exact jsGet_map_overwrite k v ps htail

theorem jsGet_map_overwrite_ne (k k' : String) (v : JSValue) (h : k ≠ k') :
    ∀ (m : List (String × JSValue)),
      jsGet (m.map (fun p => if p.1 == k' then (k', v) else p)) k = jsGet m k
  | [] => rfl
  | p :: ps => by
    by_cases hp : (p.1 == k') = true
    · simp only [List.map_cons, if_pos hp]
      have hpk : (p.1 == k) = false := by
        have hps : p.1 = k' := by simpa using hp
        simp [hps, Ne.symm h]
      simp only [jsGet]
      rw [if_neg (by simp [Ne.symm h]), if_neg (by simp [hpk])]
      exact jsGet_map_overwrite_ne k k' v h ps
    · simp only [List.map_cons, if_neg hp, jsGet]
      by_cases hpk : (p.1 == k) = true
      · rw [if_pos hpk, if_pos hpk]
      · rw [if_neg (by simp [hpk]), if_neg (by simp [hpk])]
        exact jsGet_map_overwrite_ne k k' v h ps

theorem jsGet_append_missing (k : String) (l : List (String × JSValue)) :
    ∀ (m : List (String × JSValue)), m.any (fun p => p.1 == k) = false →
      jsGet (m ++ l) k = jsGet l k
  | [], _ => rfl
  | p :: ps, h => by
    have hp : (p.1 == k) = false := by
      cases hx : (p.1 == k)
      · rfl
      · exfalso
        rw [List.any_cons, hx] at h
        simp at h
    have htail : ps.any (fun p => p.1 == k) = false := by
      rw [List.any_cons, hp] at h
      simpa using h
    simp only [List.cons_append, jsGet]
    rw [if_neg (by simp [hp])]
    exact jsGet_append_missing k l ps htail

theorem jsGet_append_single_ne (k k' : String) (v : JSValue) (h : k ≠ k') :
    ∀ (m : List (String × JSValue)), jsGet (m ++ [(k', v)]) k = jsGet m k
  | [] => by simp [jsGet, Ne.symm h]
  | p :: ps => by
    simp only [List.cons_append, jsGet]
    by_cases hpk : (p.1 == k) = true
    · rw [if_pos hpk, if_pos hpk]
    · rw [if_neg (by simp [hpk]), if_neg (by simp [hpk])]
      exact jsGet_append_single_ne k k' v h ps

theorem jsGet_insert_self (m : List (String × JSValue)) (k : String) (v : JSValue) :
    jsGet (jsInsert m k v) k = some v := by
  unfold jsInsert
  by_cases h : m.any (fun p => p.1 == k)
  · rw [if_pos h]
    exact jsGet_map_overwrite k v m h
  · rw [if_neg h]
    rw [jsGet_append_missing k _ m (Bool.eq_false_iff.mpr h)]
    simp [jsGet]

theorem jsGet_insert_ne (m : List (String × JSValue)) (k k' : String) (v : JSValue)
    (h : k ≠ k') : jsGet (jsInsert m k' v) k = jsGet m k := by
  unfold jsInsert
  by_cases hany : m.any (fun p => p.1 == k')
  · rw [if_pos hany]
    exact jsGet_map_overwrite_ne k k' v h m
  · rw [if_neg hany]
    exact jsGet_append_single_ne k k' v h m

/-! ## Accumulator lemmas for the per-day loop -/

theorem foldl_tally_total : ∀ (l : List JSValue) (acc : Tally),
    (l.foldl tallyStep acc).totalHours = acc.totalHours + (numsOf l).sum
  | [], acc => by simp [numsOf]
  | v :: t, acc => by
    rw [List.foldl_cons, foldl_tally_total t (tallyStep acc v)]
    cases v with
    | null => simp [tallyStep, numsOf]
    | str s => by_cases h : s = "REGISTRO INCOMPLETO" <;> simp [tallyStep, h, numsOf]
    | num q =>
      have hstep : (tallyStep acc (.num q)).totalHours = qAdd acc.totalHours q := by
        by_cases h : q < hoursThreshold <;> simp [tallyStep, h]
      have hnums : numsOf (JSValue.num q :: t) = q :: numsOf t := by simp [numsOf]
      rw [hstep, qAdd_eq_add, hnums, List.sum_cons]
      ring

theorem foldl_tally_registered : ∀ (l : List JSValue) (acc : Tally),
    (l.foldl tallyStep acc).registeredDaysCount =
      acc.registeredDaysCount + (numsOf l).length
  | [], acc => by simp [numsOf]
  | v :: t, acc => by
    rw [List.foldl_cons, foldl_tally_registered t (tallyStep acc v)]
    cases v with
    | null => simp [tallyStep, numsOf]
    | str s => by_cases h : s = "REGISTRO INCOMPLETO" <;> simp [tallyStep, h, numsOf]
    | num q =>
      have hstep : (tallyStep acc (.num q)).registeredDaysCount =
          acc.registeredDaysCount + 1 := by
        by_cases h : q < hoursThreshold <;> simp [tallyStep, h]
      have hnums : numsOf (JSValue.num q :: t) = q :: numsOf t := by simp [numsOf]
      rw [hstep, hnums]
      simp only [List.length_cons]
      omega

theorem foldl_tally_suff : ∀ (l : List JSValue) (acc : Tally),
    (l.foldl tallyStep acc).daysWithSufficientHours =
      acc.daysWithSufficientHours + l.countP sufficientDay
  | [], acc => by simp
  | v :: t, acc => by
    rw [List.foldl_cons, foldl_tally_suff t (tallyStep acc v), List.countP_cons]
    cases v with
    | null => simp [tallyStep, sufficientDay]
    | str s =>
      by_cases h : s = "REGISTRO INCOMPLETO" <;>
        simp [tallyStep, h, sufficientDay]
    | num q =>
      by_cases h : q < hoursThreshold
      · have hq : ¬ ((7.75 : ℚ) ≤ q) := not_le.mpr (hoursThreshold_eq ▸ h)
        simp [tallyStep, h, sufficientDay, hq]
      · have hq : (7.75 : ℚ) ≤ q := not_lt.mp (fun hc => h (hoursThreshold_eq ▸ hc))
        simp [tallyStep, h, sufficientDay, hq]
        omega

theorem foldl_tally_insuff : ∀ (l : List JSValue) (acc : Tally),
    (l.foldl tallyStep acc).daysWithInsufficientHours =
      acc.daysWithInsufficientHours + l.countP insufficientDay
  | [], acc => by simp
  | v :: t, acc => by
    rw [List.foldl_cons, foldl_tally_insuff t (tallyStep acc v), List.countP_cons]
    cases v with
    | null => simp [tallyStep, insufficientDay]
    | str s =>
      by_cases h : s = "REGISTRO INCOMPLETO"
      · simp [tallyStep, h, insufficientDay]
        omega
      · simp [tallyStep, h, insufficientDay]
    | num q =>
      by_cases h : q < hoursThreshold
      · have hq : q < (7.75 : ℚ) := hoursThreshold_eq ▸ h
        simp [tallyStep, h, insufficientDay, hq]
        omega
      · have hq : ¬ (q < (7.75 : ℚ)) := fun hc => h (hoursThreshold_eq ▸ hc)
        simp [tallyStep, h, insufficientDay, hq]

/-- The tally half of the per-day loop is a fold of `tallyStep` over the
hours values seen, in order. -/
theorem processDays_tally (month : String) (year : Int) (dateRow : List JSValue) :
    ∀ (days : List String) (index : Nat) (acc : List (String × JSValue) × Tally),
      (processDays month year dateRow index days acc).2 =
        (hoursSeen dateRow index days).foldl tallyStep acc.2
  | [], _, _ => rfl
  | d :: rest, index, acc => by
    show (processDays month year dateRow (index + 1) rest
      (dayStep month year dateRow acc index d)).2 = _
    rw [processDays_tally month year dateRow rest (index + 1)
      (dayStep month year dateRow acc index d)]
    rfl

/-! ## Scan-loop equations -/

theorem extractRows_nil (days : List String) (month : String) (year : Int) :
    extractRows days month year [] = [] := rfl

theorem extractRows_single (days : List String) (month : String) (year : Int)
    (r : List JSValue) : extractRows days month year [r] = [] := rfl

theorem extractRows_cons₂ (days : List String) (month : String) (year : Int)
    (row nextRow : List JSValue) (rest : List (List JSValue)) :
    extractRows days month year (row :: nextRow :: rest) =
      if isIdRow row then
        match processPair row nextRow days month year with
        | some r => r :: extractRows days month year rest
        | none => extractRows days month year rest
      else extractRows days month year (nextRow :: rest) := rfl

/-! ## The claims -/

/-- C4 counterexample: a normalized grid whose single row is a header row
with resolvable id `E001` produces no record at all — the loop
`for (i = 0; i < data.length - 1; i++)` never examines the last row, so
the claimed record with empty date values is not emitted. -/
theorem claim4_counterexample :
    extractFromGrid [[JSValue.str "ID :", JSValue.str "x", JSValue.str "E001"]]
      ["1"] "Jul" 2025 = [] := by decide

/-- C4 (amended): a header row at the very end of the grid is never
examined — if no row before the last is a header row, the extractor emits
no records at all, whatever the last row holds. -/
theorem claim4_amended_trailing_header_dropped (g : List (List JSValue))
    (days : List String) (month : String) (year : Int)
    (h : ∀ r ∈ g.dropLast, isIdRow r = false) :
    extractRows days month year g = [] := by
  induction g with
  | nil => rfl
  | cons a t ih =>
    cases t with
    | nil => rfl
    | cons b rest =>
      have hmem : a ∈ (a :: b :: rest).dropLast := by
        rw [List.dropLast_cons₂]
        exact List.mem_cons_self _ _
      have ha : isIdRow a = false := h a hmem
      rw [extractRows_cons₂, ha]
      simp only [Bool.false_eq_true, if_false]
      apply ih
      intro r hr
      apply h
      rw [List.dropLast_cons₂]
      exact List.mem_cons_of_mem _ hr

/-- C4 (amended) witness: a two-row grid whose second (last) row is
a full header row still yields no records. -/
theorem claim4_amended_witness :
    extractRows ["1"] "Jul" 2025
      [[JSValue.str "x"],
       [JSValue.str "ID :", JSValue.str "x", JSValue.str "E001"]] = [] :=
  claim4_amended_trailing_header_dropped _ _ _ _ (by decide)

/-- C5: a detected header row from which neither id nor name resolve
produces no record, and the scan advances past its paired punch row, so
the remaining records are exactly those of the rest of the grid. -/
theorem claim5_unresolvable_header_skipped (row nextRow : List JSValue)
    (rest : List (List JSValue)) (days : List String) (month : String)
    (year : Int) (hid : isIdRow row = true)
    (h1 : fieldAt row "ID :" 2 = JSValue.null)
    (h2 : fieldAt row "Nombre :" 1 = JSValue.null) :
    extractRows days month year (row :: nextRow :: rest) =
      extractRows days month year rest := by
  rw [extractRows_cons₂, hid]
  have hp : processPair row nextRow days month year = none := by
    unfold processPair
    rw [h1, h2]
    rfl
  rw [if_pos rfl, hp]

/-- C5 witness: a header row whose `ID :` marker sits too close to the end
of the row (offset out of range) and with no `Nombre :` marker is skipped,
and the employee block after it is still extracted. -/
theorem claim5_witness :
    extractRows ["1"] "Jul" 2025
      [[JSValue.str "ID :", JSValue.str "x"], [JSValue.str "08:00\n16:00"],
       [JSValue.str "ID :", JSValue.str "x", JSValue.str "E9"],
       [JSValue.str "08:00\n16:00"]] =
    extractRows ["1"] "Jul" 2025
      [[JSValue.str "ID :", JSValue.str "x", JSValue.str "E9"],
       [JSValue.str "08:00\n16:00"]] :=
  claim5_unresolvable_header_skipped _ _ _ _ _ _ (by decide) (by decide) (by decide)

/-- C10: for a detected header row, the scan emits the pair's record
exactly when `processPair` yields one, and `processPair` yields one
exactly when the resolved id or the resolved name is JS-truthy — presence
of a falsy id cell (`0`, `""`) with no truthy name is not enough. -/
theorem claim10_truthiness_gating (row nextRow : List JSValue)
    (rest : List (List JSValue)) (days : List String) (month : String)
    (year : Int) (hid : isIdRow row = true) :
    extractRows days month year (row :: nextRow :: rest) =
      (processPair row nextRow days month year).toList ++
        extractRows days month year rest ∧
    (processPair row nextRow days month year).isSome =
      (truthy (fieldAt row "ID :" 2) || truthy (fieldAt row "Nombre :" 1)) := by
  constructor
  · rw [extractRows_cons₂, hid, if_pos rfl]
    cases hp : processPair row nextRow days month year <;> simp
  · unfold processPair
    cases hc : truthy (fieldAt row "ID :" 2) || truthy (fieldAt row "Nombre :" 1) <;>
      simp [hc]

/-- C10 witness: a header row whose id cell holds the number `0` (falsy)
and which has no name marker is skipped even though marker and cell are
present. -/
theorem claim10_witness :
    extractRows [] "Jul" 2025
      [[JSValue.str "ID :", JSValue.str "x", JSValue.num 0], []] =
      (processPair [JSValue.str "ID :", JSValue.str "x", JSValue.num 0] []
        [] "Jul" 2025).toList ++ extractRows [] "Jul" 2025 [] ∧
    (processPair [JSValue.str "ID :", JSValue.str "x", JSValue.num 0] []
      [] "Jul" 2025).isSome =
      (truthy (fieldAt [JSValue.str "ID :", JSValue.str "x", JSValue.num 0] "ID :" 2) ||
       truthy (fieldAt [JSValue.str "ID :", JSValue.str "x", JSValue.num 0] "Nombre :" 1)) :=
  claim10_truthiness_gating _ _ _ _ _ _ (by decide)

theorem forall₂_sublist_keepIdx (P : Nat → Bool) :
    ∀ (l : List (List JSValue)),
      List.Forall₂ List.Sublist (l.map (fun row => keepIdx P 0 row)) l
  | [] => List.Forall₂.nil
  | row :: t =>
    List.Forall₂.cons (keepIdx_sublist P 0 row) (forall₂_sublist_keepIdx P t)

/-- C6: the grid normalizer keeps exactly the rows with a non-empty cell
(an empty survivor set short-circuits to the empty grid, since the map
over the empty filter result is empty), removes exactly the column
indices empty across every surviving row, and each output row is a
sublist of its surviving source row — order kept, values unaltered. -/
theorem claim6_normalizer_characterization (g : List (List JSValue)) :
    cleanData g = (g.filter rowHasValue).map
      (fun row => keepIdx (fun j => !(colIsEmpty (g.filter rowHasValue) j)) 0 row) ∧
    List.Forall₂ List.Sublist (cleanData g) (g.filter rowHasValue) := by
  refine ⟨cleanData_char g, ?_⟩
  rw [cleanData_char g]
  exact forall₂_sublist_keepIdx _ _

/-- C7: the grid normalizer is idempotent — normalizing a normalized grid
changes nothing: every surviving row still has its non-empty witness cell
and every kept column still has a non-empty witness row. -/
theorem claim7_normalizer_idempotent (g : List (List JSValue)) :
    cleanData (cleanData g) = cleanData g := by
  have hfilter : (cleanData g).filter rowHasValue = cleanData g :=
    List.filter_eq_self.mpr (cleanData_rowHasValue g)
  rw [cleanData_char (cleanData g), hfilter]
  apply map_id_on
  intro r hr
  apply keepIdx_all
  intro t ht
  simp only [Nat.zero_add]
  rw [cleanData_col_nonempty g t r hr ht]
  rfl

/-- C3: in every emitted record, `Días Cumplidos` counts exactly the days
whose hours are numeric and `≥ 7.75`, and `Días Incumplidos` exactly the
days whose hours are numeric and `< 7.75` or `"REGISTRO INCOMPLETO"`;
the boundary cases: hours `7.75` count as sufficient, `7.74` as
insufficient, and `"NO HAY REGISTRO"` touches neither bucket. -/
theorem claim3_sufficiency_counts (row nextRow : List JSValue)
    (days : List String) (month : String) (year : Int)
    (r : List (String × JSValue))
    (h : processPair row nextRow days month year = some r) :
    jsGet r "Días Cumplidos" =
      some (.num (((hoursSeen nextRow 0 days).countP sufficientDay : ℕ) : ℚ)) ∧
    jsGet r "Días Incumplidos" =
      some (.num (((hoursSeen nextRow 0 days).countP insufficientDay : ℕ) : ℚ)) ∧
    tallyStep tally0 (.num 7.75) = ⟨7.75, 1, 0, 1⟩ ∧
    tallyStep tally0 (.num 7.74) = ⟨7.74, 1, 1, 0⟩ ∧
    tallyStep tally0 (.str "NO HAY REGISTRO") = tally0 := by
  simp only [processPair] at h
  by_cases hc : truthy (fieldAt row "ID :" 2) || truthy (fieldAt row "Nombre :" 1)
  swap
  · rw [if_neg hc] at h
    exact absurd h (by simp)
  rw [if_pos hc] at h
  have hr := Option.some.inj h
  subst hr
  refine ⟨?_, ?_, ?_, ?_, ?_⟩
  · rw [jsGet_insert_ne _ _ _ _ (by decide), jsGet_insert_self]
    rw [processDays_tally, foldl_tally_suff]
    simp [tally0]
  · rw [jsGet_insert_self]
    rw [processDays_tally, foldl_tally_insuff]
    simp [tally0]
  · have hlt : ¬ ((7.75 : ℚ) < hoursThreshold) := by
      rw [hoursThreshold_eq]
      exact lt_irrefl _
    simp [tallyStep, tally0, hlt, qAdd_eq_add]
  · have hlt : (7.74 : ℚ) < hoursThreshold := by
      rw [hoursThreshold_eq]
      norm_num
    simp [tallyStep, tally0, hlt, qAdd_eq_add]
  · simp [tallyStep, tally0]

/-- C3 witness: a record emitted for a header with id `E1` and an empty
punch row. -/
theorem claim3_witness :
    jsGet [("ID", JSValue.str "E1"), ("Nombre", JSValue.null),
        ("Departamento", JSValue.null), ("1-Jul-2025", JSValue.str ""),
        ("Horas-1", JSValue.str "NO HAY REGISTRO"), ("Horas/Día", JSValue.num 0),
        ("Días Cumplidos", JSValue.num 0), ("Días Incumplidos", JSValue.num 0)]
      "Días Cumplidos" =
      some (.num (((hoursSeen [] 0 ["1"]).countP sufficientDay : ℕ) : ℚ)) ∧
    jsGet [("ID", JSValue.str "E1"), ("Nombre", JSValue.null),
        ("Departamento", JSValue.null), ("1-Jul-2025", JSValue.str ""),
        ("Horas-1", JSValue.str "NO HAY REGISTRO"), ("Horas/Día", JSValue.num 0),
        ("Días Cumplidos", JSValue.num 0), ("Días Incumplidos", JSValue.num 0)]
      "Días Incumplidos" =
      some (.num (((hoursSeen [] 0 ["1"]).countP insufficientDay : ℕ) : ℚ)) ∧
    tallyStep tally0 (.num 7.75) = ⟨7.75, 1, 0, 1⟩ ∧
    tallyStep tally0 (.num 7.74) = ⟨7.74, 1, 1, 0⟩ ∧
    tallyStep tally0 (.str "NO HAY REGISTRO") = tally0 :=
  claim3_sufficiency_counts [JSValue.str "ID :", JSValue.str "x", JSValue.str "E1"]
    [] ["1"] "Jul" 2025 _ (by decide)

/-- C8: in every emitted record, `Horas/Día` is the sum of the numeric
per-day hours divided by their count, rounded to 2 decimal places, when
that count is positive, and `0` otherwise; and the per-day hours `8` and
`7.5` average to exactly `7.75`. -/
theorem claim8_average_hours (row nextRow : List JSValue)
    (days : List String) (month : String) (year : Int)
    (r : List (String × JSValue))
    (h : processPair row nextRow days month year = some r) :
    jsGet r "Horas/Día" = some (.num
      (if 0 < (numsOf (hoursSeen nextRow 0 days)).length then
        round2 ((numsOf (hoursSeen nextRow 0 days)).sum /
          ((numsOf (hoursSeen nextRow 0 days)).length : ℚ))
      else 0)) ∧
    round2 ((8 + 7.5) / 2) = 7.75 := by
  constructor
  · simp only [processPair] at h
    by_cases hc : truthy (fieldAt row "ID :" 2) || truthy (fieldAt row "Nombre :" 1)
    swap
    · rw [if_neg hc] at h
      exact absurd h (by simp)
    rw [if_pos hc] at h
    have hr := Option.some.inj h
    subst hr
    rw [jsGet_insert_ne _ _ _ _ (by decide), jsGet_insert_ne _ _ _ _ (by decide),
      jsGet_insert_self]
    rw [processDays_tally, foldl_tally_registered, foldl_tally_total, qDiv_eq_div]
    simp [tally0]
  · have h1 : ((8 + 7.5) / 2 : ℚ) = 31 / 4 := by norm_num
    have h2 : ((31 : ℚ) / 4) = Rat.divInt 31 4 := by
      rw [Rat.divInt_eq_div]
      norm_num
    have h3 : round2 (Rat.divInt 31 4) = Rat.divInt 775 100 := by decide
    rw [h1, h2, h3, Rat.divInt_eq_div]
    norm_num

/-- C8 witness: a record whose single day's punch cell holds a number, so
no numeric hours arise and the average is `0`. -/
theorem claim8_witness :
    jsGet [("ID", JSValue.str "E2"), ("Nombre", JSValue.null),
        ("Departamento", JSValue.null), ("1-Jul-2025", JSValue.num 5),
        ("Horas-1", JSValue.str "NO HAY REGISTRO"), ("Horas/Día", JSValue.num 0),
        ("Días Cumplidos", JSValue.num 0), ("Días Incumplidos", JSValue.num 0)]
      "Horas/Día" = some (.num
      (if 0 < (numsOf (hoursSeen [JSValue.num 5] 0 ["1"])).length then
        round2 ((numsOf (hoursSeen [JSValue.num 5] 0 ["1"])).sum /
          ((numsOf (hoursSeen [JSValue.num 5] 0 ["1"])).length : ℚ))
      else 0)) ∧
    round2 ((8 + 7.5) / 2) = 7.75 :=
  claim8_average_hours [JSValue.str "ID :", JSValue.str "x", JSValue.str "E2"]
    [JSValue.num 5] ["1"] "Jul" 2025 _ (by decide)

/-- C9: `processExcel` fails exactly when the requested sheet name is
absent from the workbook, with a message enumerating the available sheet
names, and produces no records in that case; with the sheet present the
extraction is total — every punch-data irregularity is absorbed into
sentinel values rather than raised. -/
theorem claim9_sheet_error (wb : Workbook) (config : ProcessConfig) :
    ((∃ e, processExcelM wb config = .error e) ↔
      wb.sheetNames.contains config.sheetName = false) ∧
    (wb.sheetNames.contains config.sheetName = false →
      processExcelM wb config = .error ("Sheet \"" ++ config.sheetName ++
        "\" not found. Available sheets: " ++
        String.intercalate ", " wb.sheetNames)) ∧
    (wb.sheetNames.contains config.sheetName = true →
      processExcelM wb config = .ok (extractFromGrid (wb.sheets config.sheetName)
        (splitDaysStr config.days) config.month config.year)) := by
  unfold processExcelM
  cases hc : wb.sheetNames.contains config.sheetName <;> simp [hc]

/-- C9 witness: a workbook with sheets `Hoja1` and `Datos` and a request
for the missing sheet `X` fails with the enumerating message. -/
theorem claim9_witness :
    processExcelM ⟨["Hoja1", "Datos"], fun _ => []⟩ ⟨"X", "1,2", 2025, "Jul"⟩ =
      .error ("Sheet \"" ++ "X" ++ "\" not found. Available sheets: " ++
        String.intercalate ", " ["Hoja1", "Datos"]) :=
  (claim9_sheet_error ⟨["Hoja1", "Datos"], fun _ => []⟩
    ⟨"X", "1,2", 2025, "Jul"⟩).2.1 (by decide)

/-- C1: the two-row end-to-end scenario — a header row holding id `E001`,
name `Jane Doe` and department `Sales`, paired with punch cells
`08:00→16:00` and `08:00→15:30` for days 1 and 2 of `Jul` 2025 — yields
exactly the one record of the specification, with 8 and 7.5 daily hours,
average 7.75, one sufficient and one insufficient day. -/
theorem claim1_end_to_end :
    extractFromGrid
      [[JSValue.str "ID :", JSValue.str "x", JSValue.str "E001",
        JSValue.str "Nombre :", JSValue.str "Jane Doe",
        JSValue.str "Dept. :", JSValue.str "x", JSValue.str "Sales"],
       [JSValue.str "08:00\n16:00", JSValue.str "08:00\n15:30"]]
      ["1", "2"] "Jul" 2025 =
    [[("ID", JSValue.str "E001"),
      ("Nombre", JSValue.str "Jane Doe"),
      ("Departamento", JSValue.str "Sales"),
      ("1-Jul-2025", JSValue.str "08:00\n16:00"),
      ("Horas-1", JSValue.num 8),
      ("2-Jul-2025", JSValue.str "08:00\n15:30"),
      ("Horas-2", JSValue.num 7.5),
      ("Horas/Día", JSValue.num 7.75),
      ("Días Cumplidos", JSValue.num 1),
      ("Días Incumplidos", JSValue.num 1)]] := by
  have h : extractFromGrid
      [[JSValue.str "ID :", JSValue.str "x", JSValue.str "E001",
        JSValue.str "Nombre :", JSValue.str "Jane Doe",
        JSValue.str "Dept. :", JSValue.str "x", JSValue.str "Sales"],
       [JSValue.str "08:00\n16:00", JSValue.str "08:00\n15:30"]]
      ["1", "2"] "Jul" 2025 =
    [[("ID", JSValue.str "E001"),
      ("Nombre", JSValue.str "Jane Doe"),
      ("Departamento", JSValue.str "Sales"),
      ("1-Jul-2025", JSValue.str "08:00\n16:00"),
      ("Horas-1", JSValue.num 8),
      ("2-Jul-2025", JSValue.str "08:00\n15:30"),
      ("Horas-2", JSValue.num (Rat.divInt 15 2)),
      ("Horas/Día", JSValue.num (Rat.divInt 31 4)),
      ("Días Cumplidos", JSValue.num 1),
      ("Días Incumplidos", JSValue.num 1)]] := by decide
  rw [h]
  norm_num [Rat.divInt_eq_div]

/-- C2: `calculateHours` agrees with the specification's reference
description everywhere — absent, non-string or segment-free values give
`"NO HAY REGISTRO"`; a single segment, an unmatched time pattern in the
first or last segment, or a check-out not after the check-in give
`"REGISTRO INCOMPLETO"`; otherwise the clock-time difference in
fractional hours rounded to 2 decimals. -/
theorem claim2_computeHours_matches_reference (v : JSValue) :
    calculateHours v = refComputeHours v := by
  cases v with
  | null => rfl
  | num q => rfl
  | str s =>
    by_cases hs : s = ""
    · subst hs
      decide
    · simp only [calculateHours, refComputeHours, if_neg hs]
      rcases hseg : segmentsOf s with _ | ⟨p, _ | ⟨p2, ps⟩⟩
      · simp
      · simp
      · simp only [List.length_cons]
        rw [if_neg (by omega), if_neg (by omega), if_neg (by omega), if_neg (by omega)]
        cases hin : findTime ((p :: p2 :: ps).headD []) with
        | none => simp
        | some tin =>
          cases hout : findTime ((p :: p2 :: ps).getLastD []) with
          | none => simp
          | some tout =>
            simp only
            by_cases hle : tout.1 * 60 + tout.2 ≤ tin.1 * 60 + tin.2
            · simp [hle]
            · simp only [if_neg hle]
              congr 2
              rw [Rat.divInt_eq_div, Rat.divInt_eq_div, Rat.divInt_eq_div]
              push_cast
              ring

end RegAsis
